import Mathlib

/-!
Verification of the version-resolution and release-orchestration engine of
the semantic-release action.  JavaScript strings are modelled as `String`
(lists of characters), JS numbers arising here are non-negative integers and
are modelled as `Nat` (all arithmetic in range), thrown exceptions are
modelled with `Except String` / `Option`, and the external git / release
stores are modelled as explicit state records threaded through the
orchestration steps.
-/
namespace SemRel

/-! ### Decimal rendering and reading of naturals

`decChars n` models the JavaScript number-to-string conversion used by
template literals; `charsVal` / `parseIntOr0` model `parseInt(s) || 0`
restricted to the sign-free, whitespace-free inputs that can reach it here
(a component cut at a `-` or `.` separator never contains a sign or space).
-/
/-- Character of a single decimal digit. -/
def decChar (d : Nat) : Char := Char.ofNat (48 + d)

/-- Fuel-driven decimal rendering, most significant digit first. -/
def decCharsAux : Nat → Nat → List Char
  | 0, _ => []
  | fuel + 1, n =>
    if n < 10 then [decChar n]
    else decCharsAux fuel (n / 10) ++ [decChar (n % 10)]

/-- Decimal rendering of a natural number (JS `${n}` for integer `n`). -/
def decChars (n : Nat) : List Char := decCharsAux (n + 1) n

/-- Value of a list of decimal digit characters. -/
def charsVal (cs : List Char) : Nat :=
  cs.foldl (fun a c => a * 10 + (c.toNat - 48)) 0

/-- Model of JS `parseInt(s) || 0`: value of the longest digit prefix, `0`
when there is none (`parseInt` yields `NaN`, which `|| 0` turns into 0; a
literal parse of `0` also yields 0 through `|| 0`). -/
def parseIntOr0 (cs : List Char) : Nat :=
  charsVal (cs.takeWhile Char.isDigit)

/-! ### Splitting on a separator character

`splitOnSep sep cs` models the JavaScript `String.prototype.split` with a
one-character separator: it never returns an empty list, and splitting the
empty string yields `[""]`.
-/
/-- Model of JS `s.split(sep)` for a single-character separator. -/
def splitOnSep (sep : Char) : List Char → List (List Char)
  | [] => [[]]
  | c :: rest =>
    if c = sep then [] :: splitOnSep sep rest
    else
      match splitOnSep sep rest with
      | [] => [[c]]
      | g :: gs => (c :: g) :: gs

/-! ### Version model (`src/utils.js`: `parseVersion`, `formatVersion`) -/
/-- Result of `parseVersion`: the JS object
`{major, minor, patch, prerelease}` with `prerelease: string | null`. -/
structure ParsedVersion where
  major : Nat
  minor : Nat
  patch : Nat
  prerelease : Option String
deriving Repr, DecidableEq

/-- Embedding of `parseVersion(version)` from `src/utils.js`: strip an
optional leading `v`, cut at the first `-` (everything after it is the
prerelease, `null` if there is no `-`), split the front on `.`, and read
each of the first three components with `parseInt(x) || 0` (a missing
component reads as 0). -/
def parseVersionChars (cs : List Char) : ParsedVersion :=
  let clean : List Char := if cs.head? = some 'v' then cs.tail else cs
  let versionPart := clean.takeWhile (fun c => c ≠ '-')
  let prereleasePart : Option (List Char) :=
    match clean.dropWhile (fun c => c ≠ '-') with
    | [] => none
    | _ :: tail => some tail
  let parts := splitOnSep '.' versionPart
  { major := parseIntOr0 (parts.getD 0 [])
    minor := parseIntOr0 (parts.getD 1 [])
    patch := parseIntOr0 (parts.getD 2 [])
    prerelease := prereleasePart.map String.mk }

/-- String-level entry point of `parseVersion`. -/
def parseVersion (version : String) : ParsedVersion :=
  parseVersionChars version.data

/-- Embedding of `formatVersion(major, minor, patch, prerelease)`:
`v${major}.${minor}.${patch}` plus `-${prerelease}` when `prerelease` is
truthy (non-null and non-empty). -/
def formatVersionChars (major minor patch : Nat) (prerelease : Option (List Char)) :
    List Char :=
  'v' :: (decChars major ++ '.' :: decChars minor ++ '.' :: decChars patch ++
    (match prerelease with
     | some p => if p = [] then [] else '-' :: p
     | none => []))

/-- String-level entry point of `formatVersion`. -/
def formatVersion (major minor patch : Nat) (prerelease : Option String) : String :=
  String.mk (formatVersionChars major minor patch (prerelease.map String.data))

/-! ### Version comparison (`src/version.js`: `compareVersions`) -/
/-- Strict lexicographic order on lists of characters by code point. -/
def lexLt : List Char → List Char → Bool
  | [], [] => false
  | [], _ :: _ => true
  | _ :: _, [] => false
  | a :: as, b :: bs =>
    if a.toNat < b.toNat then true
    else if b.toNat < a.toNat then false
    else lexLt as bs

/-- Model of JS `a.localeCompare(b)`: locale collation is modelled as plain
code-point lexicographic comparison, returning a sign value. -/
def localeCompare (a b : String) : Int :=
  if lexLt a.data b.data then -1 else if lexLt b.data a.data then 1 else 0

/-- Embedding of `compareVersions(version1, version2)` from
`src/version.js`: raw differences of the first differing triple component
(JS `v1.major - v2.major` and so on), then the prerelease rules, where a
JS-falsy prerelease (`null` or the empty string) counts as absent. -/
def compareVersions (version1 version2 : String) : Int :=
  let v1 := parseVersion version1
  let v2 := parseVersion version2
  if v1.major ≠ v2.major then (v1.major : Int) - (v2.major : Int)
  else if v1.minor ≠ v2.minor then (v1.minor : Int) - (v2.minor : Int)
  else if v1.patch ≠ v2.patch then (v1.patch : Int) - (v2.patch : Int)
  else if v1.prerelease.getD "" ≠ "" ∧ v2.prerelease.getD "" ≠ "" then
    localeCompare (v1.prerelease.getD "") (v2.prerelease.getD "")
  else if v1.prerelease.getD "" ≠ "" then -1
  else if v2.prerelease.getD "" ≠ "" then 1
  else 0

/-! ### Version calculation (`src/version.js`: `calculateVersion`,
`parseExistingPrerelease`, `incrementPrerelease`) -/
/-- The two action inputs consumed by the version calculator. -/
structure Inputs where
  prereleaseSuffix : String
  prereleaseNumber : String
deriving Repr, DecidableEq

/-- Embedding of `calculateVersion(latestVersion, releaseType, isPrerelease,
inputs)`: bump the parsed triple according to `releaseType` (`throw` on any
other value, modelled as `Except.error`), optionally attach
`${prereleaseSuffix}.${prereleaseNumber}`, and format. -/
def calculateVersion (latestVersion releaseType : String) (isPrerelease : Bool)
    (inputs : Inputs) : Except String String :=
  let current := parseVersion latestVersion
  let bumped : Option (Nat × Nat × Nat) :=
    if releaseType = "major" then some (current.major + 1, 0, 0)
    else if releaseType = "minor" then some (current.major, current.minor + 1, 0)
    else if releaseType = "patch" then some (current.major, current.minor, current.patch + 1)
    else none
  match bumped with
  | none => Except.error ("Invalid release type: " ++ releaseType)
  | some (ma, mi, pa) =>
    let prerelease : Option String :=
      if isPrerelease then some (inputs.prereleaseSuffix ++ "." ++ inputs.prereleaseNumber)
      else none
    Except.ok (formatVersion ma mi pa prerelease)

/-- Word character of the JS regex class `\w` (ASCII letters, digits, `_`). -/
def isWordChar (c : Char) : Bool := c.isAlphanum || c = '_'

/-- Match of the anchored regex `^(\w+)\.(\d+)$` against a segment: the
greedy `\w+` must end exactly at the single `.` (a `.` is not a word
character), and the rest must be one or more digits.  Returns the two
capture groups, the second already read as a number (`parseInt`). -/
def matchPre (p : List Char) : Option (List Char × Nat) :=
  let w := p.takeWhile isWordChar
  let rest := p.dropWhile isWordChar
  if rest.head? = some '.' then
    let d := rest.tail
    if w = [] ∨ d = [] ∨ ¬(d.all Char.isDigit) then none else some (w, charsVal d)
  else none

/-- Result of `parseExistingPrerelease`: `{suffix, number}`. -/
structure ExistingPre where
  suffix : String
  number : Nat
deriving Repr, DecidableEq

/-- Embedding of `parseExistingPrerelease(version)` from `src/version.js`:
split the whole text on `-`; with fewer than two parts return `null`;
otherwise match `parts[1]` (the segment between the first and second `-`)
against `^(\w+)\.(\d+)$`. -/
def parseExistingPrerelease (version : String) : Option ExistingPre :=
  let parts := splitOnSep '-' version.data
  if parts.length < 2 then none
  else
    match matchPre (parts.getD 1 []) with
    | some wk => some { suffix := String.mk wk.1, number := wk.2 }
    | none => none

/-- Embedding of `incrementPrerelease(version, inputs)` from
`src/version.js`: when an existing prerelease with the configured suffix is
recognised, rebuild from `version.split('-')[0]` with the number bumped;
otherwise append `-${prereleaseSuffix}.${prereleaseNumber}` to the whole
original text. -/
def incrementPrerelease (version : String) (inputs : Inputs) : String :=
  match parseExistingPrerelease version with
  | some existing =>
    if existing.suffix = inputs.prereleaseSuffix then
      let versionBase := String.mk (version.data.takeWhile (fun c => c ≠ '-'))
      versionBase ++ "-" ++ inputs.prereleaseSuffix ++ "." ++
        String.mk (decChars (existing.number + 1))
    else
      version ++ "-" ++ inputs.prereleaseSuffix ++ "." ++ inputs.prereleaseNumber
  | none =>
    version ++ "-" ++ inputs.prereleaseSuffix ++ "." ++ inputs.prereleaseNumber

/-! ### Orchestration model (`src/main.js`, `src/release.js`)

The external git tag store and the release store are modelled as explicit
state.  `execSync` calls that `throw` are modelled as `Except`; calls whose
failure the source swallows in a `try/catch` are modelled as total
functions.  A failure environment records which collaborator calls fail, so
the error-handling claims quantify over every failure pattern.
-/
/-- A git tag: a named pointer at a commit. -/
structure Tag where
  name : String
  commit : Nat
deriving Repr, DecidableEq

/-- A GitHub release, keyed by id, bound to a tag name. -/
structure Release where
  id : Nat
  tagName : String
  title : String
  body : String
  prerelease : Bool
  assets : List String
deriving Repr, DecidableEq

/-- The external state the orchestrator mutates: local and remote tag
stores, the release store, the current commit, and the id counter the
release API uses for new releases. -/
structure World where
  head : Nat
  localTags : List Tag
  remoteTags : List Tag
  releases : List Release
  nextId : Nat
deriving Repr, DecidableEq

/-- Which collaborator calls fail in a given run (everything the
error-handling claims quantify over). -/
structure Env where
  tagPushFails : Bool
  getReleaseFails : Bool
  deleteReleaseFails : Bool
  createReleaseFails : Bool
  assetCopyFails : String → Bool

/-- Model of `git tag -d <name>` wrapped in the source's
`try { ... } catch { /* tag doesn't exist, that's fine */ }`: remove the
tag if present, never an error. -/
def deleteLocalTag (name : String) (w : World) : World :=
  { w with localTags := w.localTags.filter (fun t => t.name ≠ name) }

/-- Model of `git push origin ":refs/tags/<name>"` wrapped in the same
ignore-failure `try/catch`: remove the remote tag if present. -/
def deleteRemoteTag (name : String) (w : World) : World :=
  { w with remoteTags := w.remoteTags.filter (fun t => t.name ≠ name) }

/-- Model of `git tag -a <name> -m <msg>`: git refuses to create a tag that
already exists, otherwise the new tag points at the current commit. -/
def createLocalTag (name : String) (w : World) : Except String World :=
  if w.localTags.any (fun t => t.name = name) then
    Except.error ("fatal: tag already exists: " ++ name)
  else
    Except.ok { w with localTags := ⟨name, w.head⟩ :: w.localTags }

/-- Model of `git push origin <name>` for a tag: a push is rejected when
the remote already holds a tag of that name at a different commit, is a
no-op when the remote tag already matches, and otherwise uploads the local
tag. -/
def pushTag (name : String) (w : World) : Except String World :=
  match w.localTags.find? (fun t => t.name = name) with
  | none => Except.error ("error: src refspec does not match any: " ++ name)
  | some t =>
    match w.remoteTags.find? (fun r => r.name = name) with
    | some r =>
      if r.commit = t.commit then Except.ok w
      else Except.error ("rejected: tag already exists in remote: " ++ name)
    | none => Except.ok { w with remoteTags := t :: w.remoteTags }

/-- Model of `git push origin HEAD`: pushes commits only, leaving every tag
and release store untouched. -/
def pushHead (w : World) : World := w

/-- Embedding of `createAndPushTag(newVersion)` from `src/main.js`: delete
any pre-existing local tag (ignoring failure), delete any pre-existing
remote tag (ignoring failure), create the annotated tag, push `HEAD`, push
the tag.  The create and the pushes are not wrapped in `try/catch`, so
their failures propagate. -/
def createAndPushTag (newVersion : String) (w : World) : Except String World :=
  let w1 := deleteLocalTag newVersion w
  let w2 := deleteRemoteTag newVersion w1
  match createLocalTag newVersion w2 with
  | Except.error e => Except.error e
  | Except.ok w3 =>
    let w4 := pushHead w3
    pushTag newVersion w4

/-- Model of `octokit.rest.repos.createRelease`: on success a fresh release
with a new id and no assets enters the store; on failure the store is
unchanged and the error propagates to the caller. -/
def apiCreateRelease (tagName title body : String) (prerelease : Bool)
    (fails : Bool) (w : World) : Except String (World × Release) :=
  if fails then Except.error "createRelease failed"
  else
    let r : Release := ⟨w.nextId, tagName, title, body, prerelease, []⟩
    Except.ok ({ w with releases := r :: w.releases, nextId := w.nextId + 1 }, r)

/-- Embedding of `updateMajorVersionTag(majorVersion, fullVersion)` from
`src/release.js`: delete the stale major tag locally and remotely (each in
an ignore-failure `try/catch`), recreate it at the current commit, push it
(`env.tagPushFails` models a push failure).  The outer `try/catch` logs a
warning and rethrows, so the error still propagates to the caller — but any
mutation already performed stays in the store, hence the result is the
reached state paired with a success flag. -/
def updateMajorVersionTag (majorVersion : String) (env : Env) (w : World) :
    World × Bool :=
  let w1 := deleteLocalTag majorVersion w
  let w2 := deleteRemoteTag majorVersion w1
  match createLocalTag majorVersion w2 with
  | Except.error _ => (w2, false)
  | Except.ok w3 =>
    if env.tagPushFails then (w3, false)
    else
      match pushTag majorVersion w3 with
      | Except.error _ => (w3, false)
      | Except.ok w4 => (w4, true)

/-- Embedding of `deleteMajorReleaseIfExists(octokit, context, majorVersion)`:
look up the release by tag and delete it when found.  The whole body sits
in a `try/catch` that treats a 404 as "nothing to delete" and downgrades
any other error to a warning, so this step never throws. -/
def deleteMajorReleaseIfExists (majorVersion : String) (env : Env) (w : World) : World :=
  if env.getReleaseFails then w
  else
    match w.releases.find? (fun r => r.tagName = majorVersion) with
    | none => w
    | some r =>
      if env.deleteReleaseFails then w
      else { w with releases := w.releases.filter (fun x => x.id ≠ r.id) }

/-- Embedding of `createMajorReleaseNotes(majorVersion, fullVersion,
originalRelease)`. -/
def createMajorReleaseNotes (majorVersion fullVersion : String)
    (originalRelease : Release) : String :=
  "# " ++ majorVersion ++
    "\n\nThis major version tag points to the latest stable release: **" ++
    fullVersion ++ "**\n\n## Latest Release: " ++ originalRelease.title ++
    "\n\n" ++ originalRelease.body ++
    "\n\n---\n*This is an automatically generated major version release that tracks the latest stable release in the " ++
    majorVersion ++ ".x series.*"

/-- Append one uploaded asset to the release with the given id. -/
def addReleaseAsset (targetId : Nat) (asset : String) (w : World) : World :=
  { w with
      releases := w.releases.map (fun r =>
        if r.id = targetId then { r with assets := r.assets ++ [asset] } else r) }

/-- Embedding of `copyReleaseAssets(octokit, context, sourceRelease,
targetRelease)`: iterate over the source assets; each download/upload pair
sits in its own `try/catch`, so a failing asset is skipped and the loop
continues; the outer `try/catch` makes the whole step non-throwing. -/
def copyReleaseAssets (assets : List String) (targetId : Nat) (env : Env)
    (w : World) : World :=
  match assets with
  | [] => w
  | a :: rest =>
    let w1 := if env.assetCopyFails a then w else addReleaseAsset targetId a w
    copyReleaseAssets rest targetId env w1

/-- Embedding of `createMajorRelease(octokit, context, options)` from
`src/release.js`: repoint the major tag, delete a stale major release,
create the fresh major release, optionally copy the assets.  The whole body
sits in a `try/catch` that logs a warning and returns `null`, so the caller
sees `none` rather than an error; state changes made before a failure
persist. -/
def createMajorRelease (majorVersion fullVersion : String)
    (originalRelease : Release) (copyAssets : Bool) (env : Env) (w : World) :
    World × Option Release :=
  match updateMajorVersionTag majorVersion env w with
  | (w1, false) => (w1, none)
  | (w1, true) =>
    let w2 := deleteMajorReleaseIfExists majorVersion env w1
    let notes := createMajorReleaseNotes majorVersion fullVersion originalRelease
    match apiCreateRelease majorVersion majorVersion notes false
        env.createReleaseFails w2 with
    | Except.error _ => (w2, none)
    | Except.ok (w3, rel) =>
      let w4 := if copyAssets then
          copyReleaseAssets originalRelease.assets rel.id env w3
        else w3
      (w4, some rel)

/-- Embedding of the major-reconciliation tail of `run()` in `src/main.js`
(`if (inputs.baseRelease && !isPrerelease) { ... }` followed by the final
success log): derive the major tag name as `newVersion.split('.')[0]`, run
`createMajorRelease`, and report success regardless of its outcome.  The
returned `Bool` is whether the run reaches the final success report. -/
def runMajorPhase (baseRelease isPrerelease copyAssets : Bool)
    (newVersion : String) (release : Release) (env : Env) (w : World) :
    World × Bool × Option Release :=
  if baseRelease && !isPrerelease then
    let majorVersion := String.mk (newVersion.data.takeWhile (fun c => c ≠ '.'))
    let res := createMajorRelease majorVersion newVersion release copyAssets env w
    (res.1, true, res.2)
  else
    (w, true, none)

/-- The specification's strict lexicographic order on the parsed
`(major, minor, patch)` triple, written from the spec's words for the
comparison claims. -/
def specTripleLt (x y : ParsedVersion) : Prop :=
  x.major < y.major ∨
    (x.major = y.major ∧
      (x.minor < y.minor ∨ (x.minor = y.minor ∧ x.patch < y.patch)))

theorem decCharsAux_congr : ∀ {n f₁ f₂ : Nat}, n < f₁ → n < f₂ →
    decCharsAux f₁ n = decCharsAux f₂ n := by
  intro n
  induction n using Nat.strong_induction_on with
  | _ n ih =>
    intro f₁ f₂ h₁ h₂
    match f₁, f₂ with
    | 0, _ => omega
    | _ + 1, 0 => omega
    | g₁ + 1, g₂ + 1 =>
      simp only [decCharsAux]
      by_cases hn : n < 10
      · simp [hn]
      · simp only [hn, if_false]
        have hlt : n / 10 < n := Nat.div_lt_self (by omega) (by omega)
        rw [ih (n / 10) hlt (show n / 10 < g₁ by omega) (show n / 10 < g₂ by omega)]

theorem decChar_toNat {d : Nat} (h : d < 10) : (decChar d).toNat = 48 + d := by
  interval_cases d <;> decide

theorem decChar_isDigit {d : Nat} (h : d < 10) : (decChar d).isDigit = true := by
  interval_cases d <;> decide

theorem charsVal_append (l : List Char) (c : Char) :
    charsVal (l ++ [c]) = charsVal l * 10 + (c.toNat - 48) := by
  simp [charsVal, List.foldl_append]

theorem charsVal_decCharsAux : ∀ {n f : Nat}, n < f →
    charsVal (decCharsAux f n) = n := by
  intro n
  induction n using Nat.strong_induction_on with
  | _ n ih =>
    intro f hf
    match f with
    | 0 => omega
    | g + 1 =>
      simp only [decCharsAux]
      by_cases hn : n < 10
      · simp only [hn, if_true, charsVal, List.foldl]
        rw [show (decChar n).toNat - 48 = n by rw [decChar_toNat hn]; omega]
        omega
      · simp only [hn, if_false]
        rw [charsVal_append]
        have hlt : n / 10 < n := Nat.div_lt_self (by omega) (by omega)
        rw [decCharsAux_congr (show n / 10 < g by omega) (Nat.lt_succ_self _)]
        rw [ih (n / 10) hlt (Nat.lt_succ_self _)]
        rw [show (decChar (n % 10)).toNat - 48 = n % 10 by
          rw [decChar_toNat (Nat.mod_lt _ (by omega))]; omega]
        omega

theorem charsVal_decChars (n : Nat) : charsVal (decChars n) = n :=
  charsVal_decCharsAux (Nat.lt_succ_self n)

theorem decCharsAux_digits : ∀ {n f : Nat}, n < f →
    ∀ c ∈ decCharsAux f n, c.isDigit = true := by
  intro n
  induction n using Nat.strong_induction_on with
  | _ n ih =>
    intro f hf c hc
    match f with
    | 0 => omega
    | g + 1 =>
      simp only [decCharsAux] at hc
      by_cases hn : n < 10
      · simp [hn] at hc
        rw [hc]; exact decChar_isDigit hn
      · simp only [hn, if_false, List.mem_append, List.mem_singleton] at hc
        rcases hc with hc | hc
        · have hlt : n / 10 < n := Nat.div_lt_self (by omega) (by omega)
          exact ih (n / 10) hlt (show n / 10 < g by omega) c hc
        · rw [hc]; exact decChar_isDigit (Nat.mod_lt _ (by omega))

theorem decChars_digits (n : Nat) : ∀ c ∈ decChars n, c.isDigit = true :=
  decCharsAux_digits (Nat.lt_succ_self n)

theorem decChars_ne_nil (n : Nat) : decChars n ≠ [] := by
  simp only [decChars, decCharsAux]
  by_cases hn : n < 10 <;> simp [hn]

theorem isDigit_ne {c x : Char} (h : c.isDigit = true) (hx : x.isDigit = false) :
    c ≠ x := by
  intro e; rw [e, hx] at h; cases h

theorem splitOnSep_ne_nil (sep : Char) (l : List Char) : splitOnSep sep l ≠ [] := by
  match l with
  | [] => simp [splitOnSep]
  | c :: rest =>
    simp only [splitOnSep]
    by_cases h : c = sep
    · simp [h]
    · simp only [h, if_false]
      match splitOnSep sep rest with
      | [] => simp
      | g :: gs => simp

theorem splitOnSep_of_not_mem {sep : Char} {l : List Char} (h : sep ∉ l) :
    splitOnSep sep l = [l] := by
  induction l with
  | nil => rfl
  | cons c rest ih =>
    have hc : c ≠ sep := fun e => h (e ▸ List.mem_cons_self c rest)
    have hrest : sep ∉ rest := fun e => h (List.mem_cons_of_mem c e)
    simp only [splitOnSep, hc, if_false, ih hrest]

theorem splitOnSep_append {sep : Char} {A B : List Char} (h : sep ∉ A) :
    splitOnSep sep (A ++ sep :: B) = A :: splitOnSep sep B := by
  induction A with
  | nil => simp [splitOnSep]
  | cons a A ih =>
    have ha : a ≠ sep := fun e => h (e ▸ List.mem_cons_self a A)
    have hA : sep ∉ A := fun e => h (List.mem_cons_of_mem a e)
    simp only [List.cons_append, splitOnSep, ha, if_false]
    rw [show A.append (sep :: B) = A ++ sep :: B from rfl, ih hA]

theorem splitOnSep_head (sep : Char) (l : List Char) :
    (splitOnSep sep l).headD [] = l.takeWhile (fun c => c ≠ sep) := by
  induction l with
  | nil => rfl
  | cons c rest ih =>
    by_cases h : c = sep
    · simp [splitOnSep, List.takeWhile_cons, h]
    · have hd : (decide (c ≠ sep)) = true := by simp [h]
      simp only [splitOnSep, h, if_false, List.takeWhile_cons, hd, if_true]
      match hs : splitOnSep sep rest with
      | [] => exact absurd hs (splitOnSep_ne_nil sep rest)
      | g :: gs =>
        rw [hs] at ih
        simp only [List.headD] at ih ⊢
        rw [ih]

/-! ### takeWhile / dropWhile across a stopping element -/
theorem takeWhile_all {p : Char → Bool} {l : List Char}
    (h : ∀ c ∈ l, p c = true) : l.takeWhile p = l := by
  induction l with
  | nil => rfl
  | cons c rest ih =>
    simp only [List.takeWhile, h c (List.mem_cons_self c rest)]
    rw [ih fun x hx => h x (List.mem_cons_of_mem c hx)]

theorem dropWhile_all {p : Char → Bool} {l : List Char}
    (h : ∀ c ∈ l, p c = true) : l.dropWhile p = [] := by
  induction l with
  | nil => rfl
  | cons c rest ih =>
    simp only [List.dropWhile, h c (List.mem_cons_self c rest)]
    exact ih fun x hx => h x (List.mem_cons_of_mem c hx)

theorem takeWhile_append_stop {p : Char → Bool} {T : List Char} {x : Char}
    (hT : ∀ c ∈ T, p c = true) (hx : p x = false) (R : List Char) :
    (T ++ x :: R).takeWhile p = T ∧ (T ++ x :: R).dropWhile p = x :: R := by
  induction T with
  | nil => simp [List.takeWhile, List.dropWhile, hx]
  | cons c T ih =>
    have hc : p c = true := hT c (List.mem_cons_self c T)
    have hT' : ∀ c ∈ T, p c = true := fun y hy => hT y (List.mem_cons_of_mem c hy)
    rcases ih hT' with ⟨h1, h2⟩
    constructor
    · simp only [List.cons_append, List.takeWhile, hc]
      rw [show T.append (x :: R) = T ++ x :: R from rfl, h1]
    · simp only [List.cons_append, List.dropWhile, hc]
      rw [show T.append (x :: R) = T ++ x :: R from rfl, h2]

/-! ### Interaction of `formatVersion` and `parseVersion` -/
theorem parseIntOr0_decChars (n : Nat) : parseIntOr0 (decChars n) = n := by
  unfold parseIntOr0
  rw [takeWhile_all (decChars_digits n), charsVal_decChars]

theorem dot_not_mem_decChars (n : Nat) : '.' ∉ decChars n := fun h =>
  absurd (decChars_digits n '.' h) (by decide)

theorem mem_triple {M N P : Nat} {c : Char}
    (hc : c ∈ decChars M ++ '.' :: (decChars N ++ '.' :: decChars P)) :
    c.isDigit = true ∨ c = '.' := by
  simp only [List.mem_append, List.mem_cons] at hc
  rcases hc with h | h | h
  · exact Or.inl (decChars_digits M c h)
  · exact Or.inr h
  · rcases h with h | h | h
    · exact Or.inl (decChars_digits N c h)
    · exact Or.inr h
    · exact Or.inl (decChars_digits P c h)

theorem triple_no_dash {M N P : Nat} :
    ∀ c ∈ decChars M ++ '.' :: (decChars N ++ '.' :: decChars P),
      (decide (c ≠ '-')) = true := by
  intro c hc
  rcases mem_triple hc with h | h
  · simpa using isDigit_ne h (by decide)
  · simp [h]

theorem splitOnSep_triple (M N P : Nat) :
    splitOnSep '.' (decChars M ++ '.' :: (decChars N ++ '.' :: decChars P))
      = [decChars M, decChars N, decChars P] := by
  rw [splitOnSep_append (dot_not_mem_decChars M),
    splitOnSep_append (dot_not_mem_decChars N),
    splitOnSep_of_not_mem (dot_not_mem_decChars P)]

theorem formatVersionChars_none (M N P : Nat) :
    formatVersionChars M N P none
      = 'v' :: (decChars M ++ '.' :: (decChars N ++ '.' :: decChars P)) := by
  simp [formatVersionChars]

theorem formatVersionChars_some (M N P : Nat) {p : List Char} (hp : p ≠ []) :
    formatVersionChars M N P (some p)
      = 'v' :: ((decChars M ++ '.' :: (decChars N ++ '.' :: decChars P)) ++ '-' :: p) := by
  simp [formatVersionChars, hp]

theorem parseVersionChars_format_none (M N P : Nat) :
    parseVersionChars (formatVersionChars M N P none) = ⟨M, N, P, none⟩ := by
  rw [formatVersionChars_none]
  simp only [parseVersionChars, List.head?, List.tail, if_pos]
  rw [takeWhile_all (p := fun c => decide (c ≠ '-')) triple_no_dash,
    dropWhile_all (p := fun c => decide (c ≠ '-')) triple_no_dash]
  simp only [splitOnSep_triple, List.getD, List.get?, Option.getD, Option.map]
  simp [parseIntOr0_decChars]

theorem parseVersionChars_format_some (M N P : Nat) (p : List Char) (hp : p ≠ []) :
    parseVersionChars (formatVersionChars M N P (some p)) = ⟨M, N, P, some (String.mk p)⟩ := by
  rw [formatVersionChars_some M N P hp]
  simp only [parseVersionChars, List.head?, List.tail, if_pos]
  rcases takeWhile_append_stop (p := fun c => decide (c ≠ '-')) (x := '-') triple_no_dash
    (by simp) p with ⟨h1, h2⟩
  rw [h1, h2]
  simp only [splitOnSep_triple, List.getD, List.get?, Option.getD, Option.map]
  simp [parseIntOr0_decChars]

theorem parseVersion_format_none (M N P : Nat) :
    parseVersion (formatVersion M N P none) = ⟨M, N, P, none⟩ := by
  unfold parseVersion formatVersion
  exact parseVersionChars_format_none M N P

theorem parseVersion_format_some (M N P : Nat) (p : String) (hp : p ≠ "") :
    parseVersion (formatVersion M N P (some p)) = ⟨M, N, P, some p⟩ := by
  unfold parseVersion formatVersion
  have hd : p.data ≠ [] := by
    intro h
    exact hp (by cases p with | mk l => simp at h; rw [h])
  have := parseVersionChars_format_some M N P p.data hd
  simpa using this

/-! ### Claim C1: the version bump rules of `calculateVersion` -/

/-- C1: for every current version text, `calculateVersion` bumps the parsed
triple as `major+1,0,0` / `major,minor+1,0` / `major,minor,patch+1`
according to the release type, appends `<prereleaseSuffix>.<prereleaseNumber>`
exactly when `isPrerelease` is set, and signals an invalid-release-type
error (producing no version) for any release type outside
`{major, minor, patch}`. -/
theorem calculateVersion_spec (s rt : String) (ip : Bool) (inputs : Inputs) :
    (calculateVersion s "major" false inputs
       = Except.ok (formatVersion ((parseVersion s).major + 1) 0 0 none))
  ∧ (calculateVersion s "minor" false inputs
       = Except.ok (formatVersion (parseVersion s).major ((parseVersion s).minor + 1) 0 none))
  ∧ (calculateVersion s "patch" false inputs
       = Except.ok (formatVersion (parseVersion s).major (parseVersion s).minor
           ((parseVersion s).patch + 1) none))
  ∧ (calculateVersion s "major" true inputs
       = Except.ok (formatVersion ((parseVersion s).major + 1) 0 0
           (some (inputs.prereleaseSuffix ++ "." ++ inputs.prereleaseNumber))))
  ∧ (calculateVersion s "minor" true inputs
       = Except.ok (formatVersion (parseVersion s).major ((parseVersion s).minor + 1) 0
           (some (inputs.prereleaseSuffix ++ "." ++ inputs.prereleaseNumber))))
  ∧ (calculateVersion s "patch" true inputs
       = Except.ok (formatVersion (parseVersion s).major (parseVersion s).minor
           ((parseVersion s).patch + 1)
           (some (inputs.prereleaseSuffix ++ "." ++ inputs.prereleaseNumber))))
  ∧ (rt ≠ "major" → rt ≠ "minor" → rt ≠ "patch" →
       calculateVersion s rt ip inputs
         = Except.error ("Invalid release type: " ++ rt)) := by
  refine ⟨?_, ?_, ?_, ?_, ?_, ?_, ?_⟩
  · simp [calculateVersion]
  · simp [calculateVersion]
  · simp [calculateVersion]
  · simp [calculateVersion]
  · simp [calculateVersion]
  · simp [calculateVersion]
  · intro h1 h2 h3
    simp [calculateVersion, h1, h2, h3]

/-- C1 witness: the invalid-release-type branch at a concrete input. -/
theorem calculateVersion_spec_witness :
    calculateVersion "v1.2.3" "none" false ⟨"beta", "1"⟩
      = Except.error "Invalid release type: none" :=
  (calculateVersion_spec "v1.2.3" "none" false ⟨"beta", "1"⟩).2.2.2.2.2.2
    (by decide) (by decide) (by decide)

/-! ### Claim C9: a non-prerelease computation discards any prerelease -/

/-- C9: with `isPrerelease = false`, `calculateVersion` depends only on the
parsed `(major, minor, patch)` triple of the current version (any
prerelease component is discarded), the produced version parses with no
prerelease, and concretely `calculateVersion('v1.2.3-beta.4', 'patch',
false)` yields `v1.2.4`. -/
theorem calculateVersion_discards_prerelease (s t rt : String) (inputs : Inputs) :
    ((parseVersion s).major = (parseVersion t).major →
     (parseVersion s).minor = (parseVersion t).minor →
     (parseVersion s).patch = (parseVersion t).patch →
       calculateVersion s rt false inputs = calculateVersion t rt false inputs)
  ∧ (∀ res, calculateVersion s rt false inputs = Except.ok res →
       (parseVersion res).prerelease = none)
  ∧ calculateVersion "v1.2.3-beta.4" "patch" false inputs = Except.ok "v1.2.4" := by
  refine ⟨?_, ?_, ?_⟩
  · intro h1 h2 h3
    simp only [calculateVersion, h1, h2, h3]
  · intro res h
    by_cases hmaj : rt = "major"
    · simp [calculateVersion, hmaj] at h
      rw [← h, parseVersion_format_none]
    · by_cases hmin : rt = "minor"
      · simp [calculateVersion, hmaj, hmin] at h
        rw [← h, parseVersion_format_none]
      · by_cases hpat : rt = "patch"
        · simp [calculateVersion, hmaj, hmin, hpat] at h
          rw [← h, parseVersion_format_none]
        · simp [calculateVersion, hmaj, hmin, hpat] at h
  · rfl

/-- C9 witness: triple-equal inputs with and without a prerelease produce
the same result. -/
theorem calculateVersion_discards_prerelease_witness :
    calculateVersion "v1.2.3-beta.4" "patch" false ⟨"beta", "1"⟩
      = calculateVersion "v1.2.3" "patch" false ⟨"beta", "1"⟩ :=
  (calculateVersion_discards_prerelease "v1.2.3-beta.4" "v1.2.3" "patch"
    ⟨"beta", "1"⟩).1 (by decide) (by decide) (by decide)

/-! ### Claims C3 and C6: the shape and order behaviour of `compareVersions` -/

theorem lexLt_self (l : List Char) : lexLt l l = false := by
  induction l with
  | nil => rfl
  | cons c rest ih => simp [lexLt, ih]

theorem localeCompare_self (s : String) : localeCompare s s = 0 := by
  simp [localeCompare, lexLt_self]

theorem localeCompare_sign (a b : String) :
    localeCompare a b = -1 ∨ localeCompare a b = 0 ∨ localeCompare a b = 1 := by
  unfold localeCompare
  by_cases h1 : lexLt a.data b.data
  · simp [h1]
  · by_cases h2 : lexLt b.data a.data
    · simp [h1, h2]
    · simp [h1, h2]

/-- C3 counterexample: `compareVersions` returns the raw major difference,
so on `v3.0.0` versus `v1.0.0` it returns `2`, which is none of `-1`, `0`,
`1` — the claimed codomain `{-1, 0, 1}` is wrong. -/
theorem compareVersions_counterexample :
    compareVersions "v3.0.0" "v1.0.0" = 2
  ∧ ((2 : Int) ≠ -1 ∧ (2 : Int) ≠ 0 ∧ (2 : Int) ≠ 1) :=
  ⟨by decide, by decide, by decide, by decide⟩

/-- C3 (amended): `compareVersions` returns the signed difference of the
first differing triple component (an arbitrary integer), and only when the
parsed triples coincide is the result confined to `{-1, 0, 1}`. -/
theorem compareVersions_amended (a b : String) :
    ((parseVersion a).major ≠ (parseVersion b).major →
      compareVersions a b
        = ((parseVersion a).major : Int) - ((parseVersion b).major : Int))
  ∧ ((parseVersion a).major = (parseVersion b).major →
     (parseVersion a).minor ≠ (parseVersion b).minor →
      compareVersions a b
        = ((parseVersion a).minor : Int) - ((parseVersion b).minor : Int))
  ∧ ((parseVersion a).major = (parseVersion b).major →
     (parseVersion a).minor = (parseVersion b).minor →
     (parseVersion a).patch ≠ (parseVersion b).patch →
      compareVersions a b
        = ((parseVersion a).patch : Int) - ((parseVersion b).patch : Int))
  ∧ ((parseVersion a).major = (parseVersion b).major →
     (parseVersion a).minor = (parseVersion b).minor →
     (parseVersion a).patch = (parseVersion b).patch →
      compareVersions a b = -1 ∨ compareVersions a b = 0 ∨ compareVersions a b = 1) := by
  refine ⟨?_, ?_, ?_, ?_⟩
  · intro h; simp [compareVersions, h]
  · intro h1 h2; simp [compareVersions, h1, h2]
  · intro h1 h2 h3; simp [compareVersions, h1, h2, h3]
  · intro h1 h2 h3
    simp only [compareVersions, h1, h2, h3, ne_eq, not_true_eq_false, if_false]
    by_cases hp : (parseVersion b).prerelease.getD "" = ""
    · by_cases hq : (parseVersion a).prerelease.getD "" = "" <;> simp [hp, hq]
    · by_cases hq : (parseVersion a).prerelease.getD "" = ""
      · simp [hp, hq]
      · simp only [hp, hq, not_false_eq_true, and_self, if_true]
        exact localeCompare_sign _ _

/-- C3 witness: the minor-difference branch at a concrete pair. -/
theorem compareVersions_amended_witness :
    compareVersions "v2.0.0" "v2.3.0"
      = ((parseVersion "v2.0.0").minor : Int) - ((parseVersion "v2.3.0").minor : Int) :=
  (compareVersions_amended "v2.0.0" "v2.3.0").2.1 (by decide) (by decide)

/-- C6: `compareVersions` is reflexively zero, its sign agrees with the
specification's lexicographic order on the parsed triple, and on equal
triples a (truthy) prerelease sorts strictly before no prerelease — in
particular `compareVersions("v1.0.0-beta.1", "v1.0.0") < 0`. -/
theorem compareVersions_order (v a b : String) :
    compareVersions v v = 0
  ∧ (specTripleLt (parseVersion a) (parseVersion b) → compareVersions a b < 0)
  ∧ (specTripleLt (parseVersion b) (parseVersion a) → 0 < compareVersions a b)
  ∧ ((parseVersion a).major = (parseVersion b).major →
     (parseVersion a).minor = (parseVersion b).minor →
     (parseVersion a).patch = (parseVersion b).patch →
     (parseVersion a).prerelease.getD "" ≠ "" →
     (parseVersion b).prerelease.getD "" = "" →
      compareVersions a b = -1)
  ∧ compareVersions "v1.0.0-beta.1" "v1.0.0" < 0 := by
  refine ⟨?_, ?_, ?_, ?_, by decide⟩
  · by_cases hp : (parseVersion v).prerelease.getD "" = ""
    · simp [compareVersions, hp]
    · simp [compareVersions, hp, localeCompare_self]
  · intro h
    rcases h with h | ⟨h1, h | ⟨h2, h3⟩⟩
    · have hne : (parseVersion a).major ≠ (parseVersion b).major := Nat.ne_of_lt h
      simp only [compareVersions, hne, ne_eq, not_false_eq_true, if_true]
      omega
    · have hne : (parseVersion a).minor ≠ (parseVersion b).minor := Nat.ne_of_lt h
      simp only [compareVersions, h1, hne, ne_eq, not_true_eq_false, if_false,
        not_false_eq_true, if_true]
      omega
    · have hne : (parseVersion a).patch ≠ (parseVersion b).patch := Nat.ne_of_lt h3
      simp only [compareVersions, h1, h2, hne, ne_eq, not_true_eq_false, if_false,
        not_false_eq_true, if_true]
      omega
  · intro h
    rcases h with h | ⟨h1, h | ⟨h2, h3⟩⟩
    · have hne : (parseVersion a).major ≠ (parseVersion b).major := (Nat.ne_of_lt h).symm
      simp only [compareVersions, hne, ne_eq, not_false_eq_true, if_true]
      omega
    · have hne : (parseVersion a).minor ≠ (parseVersion b).minor := (Nat.ne_of_lt h).symm
      simp only [compareVersions, h1.symm, hne, ne_eq, not_true_eq_false, if_false,
        not_false_eq_true, if_true]
      omega
    · have hne : (parseVersion a).patch ≠ (parseVersion b).patch := (Nat.ne_of_lt h3).symm
      simp only [compareVersions, h1.symm, h2.symm, hne, ne_eq, not_true_eq_false,
        if_false, not_false_eq_true, if_true]
      omega
  · intro h1 h2 h3 hp hq
    simp [compareVersions, h1, h2, h3, hp, hq]

/-- C6 witness: strict triple order and the prerelease-precedes-release
rule at concrete versions. -/
theorem compareVersions_order_witness :
    compareVersions "v1.2.3" "v1.2.4" < 0
  ∧ compareVersions "v2.5.0-rc.1" "v2.5.0" = -1 :=
  ⟨(compareVersions_order "v0.0.0" "v1.2.3" "v1.2.4").2.1
      (Or.inr ⟨by decide, Or.inr ⟨by decide, by decide⟩⟩),
   (compareVersions_order "v0.0.0" "v2.5.0-rc.1" "v2.5.0").2.2.2.1
      (by decide) (by decide) (by decide) (by decide) (by decide)⟩

/-! ### Claim C2: retry safety of the tag step -/

theorem any_name_filter_ne (v : String) (l : List Tag) :
    (l.filter (fun t => t.name ≠ v)).any (fun t => t.name = v) = false := by
  rw [List.any_eq_false]
  intro t ht
  rcases List.mem_filter.mp ht with ⟨_, hne⟩
  simpa using hne

theorem find?_name_filter_ne (v : String) (l : List Tag) :
    (l.filter (fun t => t.name ≠ v)).find? (fun t => t.name = v) = none := by
  rw [List.find?_eq_none]
  intro t ht
  rcases List.mem_filter.mp ht with ⟨_, hne⟩
  simpa using hne

theorem filter_ne_idem (v : String) (l : List Tag) :
    (l.filter (fun t => t.name ≠ v)).filter (fun t => t.name ≠ v)
      = l.filter (fun t => t.name ≠ v) := by
  rw [List.filter_eq_self]
  intro t ht
  exact (List.mem_filter.mp ht).2

theorem filter_eq_name_cons (v : String) (c : Nat) (l : List Tag) :
    ((⟨v, c⟩ : Tag) :: l.filter (fun t => t.name ≠ v)).filter (fun t => t.name = v)
      = [⟨v, c⟩] := by
  rw [List.filter_cons_of_pos (by simp), List.filter_eq_nil_iff.mpr]
  intro t ht
  rcases List.mem_filter.mp ht with ⟨_, hne⟩
  simpa using hne

theorem find?_false_none (l : List Tag) : l.find? (fun _ => false) = none :=
  List.find?_eq_none.mpr (by simp)

theorem createAndPushTag_run (v : String) (w : World) :
    createAndPushTag v w = Except.ok
      { w with
          localTags := ⟨v, w.head⟩ :: w.localTags.filter (fun t => t.name ≠ v),
          remoteTags := ⟨v, w.head⟩ :: w.remoteTags.filter (fun t => t.name ≠ v) } := by
  simp [createAndPushTag, deleteLocalTag, deleteRemoteTag, pushHead, createLocalTag,
    pushTag, any_name_filter_ne, find?_name_filter_ne, List.find?_cons_of_pos,
    find?_false_none]

/-- C2: running the orchestrator's tag step (`createAndPushTag`) leaves the
stores with exactly one tag named `v` — locally and remotely — pointing at
the current commit, surfaces no duplicate-tag error on either run, and a
second (retried) run against the same commit reproduces the exact same
state. -/
theorem createAndPushTag_idempotent (w : World) (v : String) :
    ∃ w', createAndPushTag v w = Except.ok w'
      ∧ createAndPushTag v w' = Except.ok w'
      ∧ w'.localTags.filter (fun t => t.name = v) = [⟨v, w.head⟩]
      ∧ w'.remoteTags.filter (fun t => t.name = v) = [⟨v, w.head⟩]
      ∧ w'.head = w.head := by
  refine ⟨_, createAndPushTag_run v w, ?_, ?_, ?_, rfl⟩
  · rw [createAndPushTag_run]
    congr 1
    rw [show (⟨v, w.head⟩ :: w.localTags.filter (fun t => t.name ≠ v)).filter
        (fun t => t.name ≠ v) = w.localTags.filter (fun t => t.name ≠ v) by
      rw [List.filter_cons_of_neg (by simp), filter_ne_idem]]
    rw [show (⟨v, w.head⟩ :: w.remoteTags.filter (fun t => t.name ≠ v)).filter
        (fun t => t.name ≠ v) = w.remoteTags.filter (fun t => t.name ≠ v) by
      rw [List.filter_cons_of_neg (by simp), filter_ne_idem]]
  · exact filter_eq_name_cons v w.head w.localTags
  · exact filter_eq_name_cons v w.head w.remoteTags

/-! ### Claims C7 and C8: the major-reconciliation step -/

theorem updateMajorVersionTag_snd (mv : String) (env : Env) (w : World) :
    (updateMajorVersionTag mv env w).2 = !env.tagPushFails := by
  by_cases hf : env.tagPushFails <;>
    simp [updateMajorVersionTag, deleteLocalTag, deleteRemoteTag, createLocalTag,
      pushTag, any_name_filter_ne, find?_name_filter_ne, List.find?_cons_of_pos,
      find?_false_none, hf]

theorem find?_map_assets (targetId : Nat) (a : String) (l : List Release) :
    (l.map (fun r => if r.id = targetId then { r with assets := r.assets ++ [a] } else r)).find?
        (fun r => r.id = targetId)
      = (l.find? (fun r => r.id = targetId)).map
          (fun r => { r with assets := r.assets ++ [a] }) := by
  induction l with
  | nil => rfl
  | cons r rest ih =>
    by_cases h : r.id = targetId
    · simp [List.find?, h]
    · simp [List.find?, h, ih]

theorem copyReleaseAssets_find? (env : Env) (assets : List String) :
    ∀ (targetId : Nat) (w : World) (r : Release),
      w.releases.find? (fun x => x.id = targetId) = some r →
      (copyReleaseAssets assets targetId env w).releases.find? (fun x => x.id = targetId)
        = some { r with
            assets := r.assets ++ assets.filter (fun a => !env.assetCopyFails a) } := by
  induction assets with
  | nil =>
    intro targetId w r h
    simp [copyReleaseAssets, h]
  | cons a rest ih =>
    intro targetId w r h
    simp only [copyReleaseAssets]
    by_cases hf : env.assetCopyFails a
    · simp only [hf, if_true]
      rw [ih targetId w r h]
      simp [hf]
    · simp only [hf, Bool.false_eq_true, if_false]
      have h' : (addReleaseAsset targetId a w).releases.find? (fun x => x.id = targetId)
          = some { r with assets := r.assets ++ [a] } := by
        simp only [addReleaseAsset]
        rw [find?_map_assets, h]
        rfl
      rw [ih targetId _ _ h']
      simp [hf, List.append_assoc]

/-- C7: every failure inside the major-reconciliation step is non-fatal:
the run tail still reports success for any failure environment,
`createMajorRelease` returns `null` (never a propagated error) when the
major-tag push or the major-release creation fails, succeeds when neither
fails (stale-release-delete and asset-copy failures notwithstanding), and
a failing asset copy skips only that asset — the copied set is exactly the
non-failing assets. -/
theorem createMajorRelease_nonfatal (env : Env) (w : World) (mv fv : String)
    (orig rel : Release) (ca br : Bool) :
    (runMajorPhase br false ca fv rel env w).2.1 = true
  ∧ (env.tagPushFails = true ∨ env.createReleaseFails = true →
      (createMajorRelease mv fv orig ca env w).2 = none)
  ∧ (env.tagPushFails = false → env.createReleaseFails = false →
      ((createMajorRelease mv fv orig ca env w).2).isSome = true)
  ∧ (∀ (assets : List String) (targetId : Nat) (r : Release),
      w.releases.find? (fun x => x.id = targetId) = some r →
      (copyReleaseAssets assets targetId env w).releases.find? (fun x => x.id = targetId)
        = some { r with
            assets := r.assets ++ assets.filter (fun a => !env.assetCopyFails a) }) := by
  refine ⟨?_, ?_, ?_, fun assets targetId r h => copyReleaseAssets_find? env assets targetId w r h⟩
  · by_cases hbr : br <;> simp [runMajorPhase, hbr]
  · intro hOr
    have hsnd := updateMajorVersionTag_snd mv env w
    rcases hu : updateMajorVersionTag mv env w with ⟨w1, b⟩
    rw [hu] at hsnd
    rcases hOr with hT | hC
    · rw [hT] at hsnd
      simp only at hsnd
      rw [hsnd] at hu
      simp [createMajorRelease, hu]
    · cases b
      · simp [createMajorRelease, hu]
      · simp [createMajorRelease, hu, apiCreateRelease, hC]
  · intro hT hC
    have hsnd := updateMajorVersionTag_snd mv env w
    rcases hu : updateMajorVersionTag mv env w with ⟨w1, b⟩
    rw [hu, hT] at hsnd
    simp only at hsnd
    rw [hsnd] at hu
    by_cases hca : ca <;> simp [createMajorRelease, hu, apiCreateRelease, hC, hca]

/-- C7 witness: a failing tag push yields `null` and the run still
succeeds; a failing first asset still lets the second asset be copied. -/
theorem createMajorRelease_nonfatal_witness :
    (runMajorPhase true false true "v1.2.3" ⟨1, "v1.2.3", "t", "b", false, []⟩
        ⟨true, false, false, false, fun _ => false⟩ ⟨7, [], [], [], 2⟩).2.1 = true
  ∧ (createMajorRelease "v1" "v1.2.3" ⟨1, "v1.2.3", "t", "b", false, []⟩ true
        ⟨true, false, false, false, fun _ => false⟩ ⟨7, [], [], [], 2⟩).2 = none
  ∧ ((createMajorRelease "v1" "v1.2.3" ⟨1, "v1.2.3", "t", "b", false, []⟩ true
        ⟨false, false, true, false, fun _ => true⟩ ⟨7, [], [], [], 2⟩).2).isSome = true
  ∧ (copyReleaseAssets ["a", "b"] 5
        ⟨false, false, false, false, fun s => s = "a"⟩
        ⟨0, [], [], [⟨5, "v1", "t", "b", false, []⟩], 6⟩).releases.find?
          (fun x => x.id = 5)
      = some ⟨5, "v1", "t", "b", false, [] ++ ["a", "b"].filter
          (fun a => !(Env.mk false false false false (fun s => s = "a")).assetCopyFails a)⟩ := by
  refine ⟨?_, ?_, ?_, ?_⟩
  · exact (createMajorRelease_nonfatal ⟨true, false, false, false, fun _ => false⟩
      ⟨7, [], [], [], 2⟩ "v1" "v1.2.3" ⟨1, "v1.2.3", "t", "b", false, []⟩
      ⟨1, "v1.2.3", "t", "b", false, []⟩ true true).1
  · exact (createMajorRelease_nonfatal ⟨true, false, false, false, fun _ => false⟩
      ⟨7, [], [], [], 2⟩ "v1" "v1.2.3" ⟨1, "v1.2.3", "t", "b", false, []⟩
      ⟨1, "v1.2.3", "t", "b", false, []⟩ true true).2.1 (Or.inl rfl)
  · exact (createMajorRelease_nonfatal ⟨false, false, true, false, fun _ => true⟩
      ⟨7, [], [], [], 2⟩ "v1" "v1.2.3" ⟨1, "v1.2.3", "t", "b", false, []⟩
      ⟨1, "v1.2.3", "t", "b", false, []⟩ true true).2.2.1 rfl rfl
  · exact (createMajorRelease_nonfatal ⟨false, false, false, false, fun s => s = "a"⟩
      ⟨0, [], [], [⟨5, "v1", "t", "b", false, []⟩], 6⟩ "v1" "v1.2.3"
      ⟨1, "v1.2.3", "t", "b", false, []⟩ ⟨1, "v1.2.3", "t", "b", false, []⟩
      true true).2.2.2 ["a", "b"] 5 ⟨5, "v1", "t", "b", false, []⟩ (by decide)

/-- C8: with `isPrerelease = true` the run tail leaves the world completely
unchanged and produces no major release — no major-tracking tag or release
is created or modified — and the reconciliation block is also skipped
whenever the caller has not requested major-tracking behaviour. -/
theorem runMajorPhase_prerelease_skips (br ca : Bool) (v : String) (rel : Release)
    (env : Env) (w : World) :
    runMajorPhase br true ca v rel env w = (w, true, none)
  ∧ (br = false → runMajorPhase br false ca v rel env w = (w, true, none)) := by
  constructor
  · simp [runMajorPhase]
  · intro h
    rw [h]
    simp [runMajorPhase]

/-- C8 witness: the not-requested branch at concrete inputs. -/
theorem runMajorPhase_prerelease_skips_witness :
    runMajorPhase false false true "v1.5.0"
        ⟨1, "v1.5.0", "t", "b", false, []⟩
        ⟨false, false, false, false, fun _ => false⟩ ⟨3, [], [], [], 1⟩
      = (⟨3, [], [], [], 1⟩, true, none) :=
  (runMajorPhase_prerelease_skips false true "v1.5.0"
    ⟨1, "v1.5.0", "t", "b", false, []⟩
    ⟨false, false, false, false, fun _ => false⟩ ⟨3, [], [], [], 1⟩).2 rfl

/-! ### Prerelease segment lemmas (for `parseExistingPrerelease` and
`incrementPrerelease`) -/

theorem mk_append (a b : List Char) : String.mk a ++ String.mk b = String.mk (a ++ b) :=
  rfl

theorem isWordChar_of_digit {c : Char} (h : c.isDigit = true) : isWordChar c = true := by
  simp [isWordChar, Char.isAlphanum, h]

theorem dash_not_mem_triple {M N P : Nat} :
    '-' ∉ decChars M ++ '.' :: (decChars N ++ '.' :: decChars P) := by
  intro h
  have := triple_no_dash '-' h
  simp at this

theorem dash_not_mem_pre {sfx : List Char} (hw : ∀ c ∈ sfx, isWordChar c = true)
    (k : Nat) : '-' ∉ sfx ++ '.' :: decChars k := by
  intro h
  simp only [List.mem_append, List.mem_cons] at h
  rcases h with h | h | h
  · have := hw '-' h
    simp [isWordChar, Char.isAlphanum] at this
  · cases h
  · exact absurd (decChars_digits k '-' h) (by decide)

theorem matchPre_segment {sfx : List Char} (k : Nat) (hne : sfx ≠ [])
    (hw : ∀ c ∈ sfx, isWordChar c = true) :
    matchPre (sfx ++ '.' :: decChars k) = some (sfx, k) := by
  rcases takeWhile_append_stop (p := isWordChar) (x := '.') hw (by decide)
    (decChars k) with ⟨h1, h2⟩
  simp only [matchPre, h1, h2, List.head?, List.tail, if_true]
  rw [if_neg, charsVal_decChars]
  push_neg
  refine ⟨hne, decChars_ne_nil k, ?_⟩
  rw [List.all_eq_true]
  intro c hc
  exact decChars_digits k c hc

theorem parseExistingPrerelease_segment {A B : List Char} (h : '-' ∉ A) :
    parseExistingPrerelease (String.mk (A ++ '-' :: B))
      = (matchPre (B.takeWhile (fun c => c ≠ '-'))).map
          (fun wk => ⟨String.mk wk.1, wk.2⟩) := by
  have hd : (String.mk (A ++ '-' :: B)).data = A ++ '-' :: B := rfl
  simp only [parseExistingPrerelease, hd, splitOnSep_append h]
  have hh := splitOnSep_head '-' B
  rcases hs : splitOnSep '-' B with _ | ⟨g, gs⟩
  · exact absurd hs (splitOnSep_ne_nil '-' B)
  · rw [hs] at hh
    simp only [List.headD] at hh
    rw [if_neg (by simp), show (A :: g :: gs).getD 1 [] = g from rfl, hh]
    rcases hm : matchPre (B.takeWhile (fun c => c ≠ '-')) with _ | wk
    · rfl
    · rfl

theorem parseExistingPrerelease_no_dash {A : List Char} (h : '-' ∉ A) :
    parseExistingPrerelease (String.mk A) = none := by
  have hd : (String.mk A).data = A := rfl
  simp only [parseExistingPrerelease, hd, splitOnSep_of_not_mem h]
  rw [if_pos (by simp)]

theorem pre_append_data (sfx d : List Char) :
    (String.mk sfx ++ "." ++ String.mk d) = String.mk (sfx ++ '.' :: d) := by
  rw [show ("." : String) = String.mk ['.'] from rfl, mk_append, mk_append]
  simp

theorem formatVersion_data_some (M N P : Nat) {p : List Char} (hp : p ≠ []) :
    formatVersion M N P (some (String.mk p))
      = String.mk ('v' :: ((decChars M ++ '.' :: (decChars N ++ '.' :: decChars P))
          ++ '-' :: p)) := by
  unfold formatVersion
  rw [show (some (String.mk p)).map String.data = some p from rfl,
    formatVersionChars_some M N P hp]

theorem incrementPrerelease_same_suffix (M N P k : Nat) (sfx : List Char)
    (inputs : Inputs) (hne : sfx ≠ []) (hw : ∀ c ∈ sfx, isWordChar c = true)
    (hsfx : inputs.prereleaseSuffix = String.mk sfx) :
    incrementPrerelease
        (formatVersion M N P (some (String.mk (sfx ++ '.' :: decChars k)))) inputs
      = formatVersion M N P
          (some (inputs.prereleaseSuffix ++ "." ++ String.mk (decChars (k + 1)))) := by
  have hpre : (sfx ++ '.' :: decChars k) ≠ [] := by
    cases sfx <;> simp
  have hparse : parseExistingPrerelease
      (formatVersion M N P (some (String.mk (sfx ++ '.' :: decChars k))))
        = some ⟨String.mk sfx, k⟩ := by
    rw [formatVersion_data_some M N P hpre,
      show ('v' :: ((decChars M ++ '.' :: (decChars N ++ '.' :: decChars P))
          ++ '-' :: (sfx ++ '.' :: decChars k)))
        = ('v' :: (decChars M ++ '.' :: (decChars N ++ '.' :: decChars P)))
          ++ '-' :: (sfx ++ '.' :: decChars k) from rfl]
    rw [parseExistingPrerelease_segment (by
      intro h
      rcases List.mem_cons.mp h with h | h
      · cases h
      · exact dash_not_mem_triple h)]
    rw [takeWhile_all (fun c hc => by
      have := dash_not_mem_pre hw k
      simp only [decide_eq_true_eq]
      intro e
      rw [e] at hc
      exact this hc)]
    rw [matchPre_segment k hne hw]
    rfl
  rw [incrementPrerelease, hparse]
  simp only [hsfx, if_true]
  rw [formatVersion_data_some M N P hpre]
  rw [show (String.mk ('v' :: ((decChars M ++ '.' :: (decChars N ++ '.' :: decChars P))
      ++ '-' :: (sfx ++ '.' :: decChars k)))).data
    = ('v' :: (decChars M ++ '.' :: (decChars N ++ '.' :: decChars P)))
      ++ '-' :: (sfx ++ '.' :: decChars k) from by simp]
  rcases takeWhile_append_stop (p := fun c => decide (c ≠ '-')) (x := '-')
    (T := 'v' :: (decChars M ++ '.' :: (decChars N ++ '.' :: decChars P)))
    (fun c hc => by
      rcases List.mem_cons.mp hc with h | h
      · rw [h]; decide
      · exact triple_no_dash c h)
    (by simp) (sfx ++ '.' :: decChars k) with ⟨h1, _⟩
  rw [h1]
  rw [pre_append_data sfx (decChars (k + 1)),
    formatVersion_data_some M N P (by cases sfx <;> simp)]
  rw [show ("-" : String) = String.mk ['-'] from rfl,
    show ("." : String) = String.mk ['.'] from rfl, mk_append, mk_append, mk_append]
  simp

/-! ### Claim C4: `incrementPrerelease` -/

/-- C4 counterexample: with an existing prerelease of a different suffix,
the fresh prerelease is appended to the whole original text, not to the
bare triple — `incrementPrerelease('v1.3.0-beta.1', 'rc', '1')` yields the
doubly-suffixed `v1.3.0-beta.1-rc.1`, not `v1.3.0-rc.1`. -/
theorem incrementPrerelease_counterexample :
    incrementPrerelease "v1.3.0-beta.1" ⟨"rc", "1"⟩ = "v1.3.0-beta.1-rc.1"
  ∧ incrementPrerelease "v1.3.0-beta.1" ⟨"rc", "1"⟩ ≠ "v1.3.0-rc.1" :=
  ⟨by decide, by decide⟩

/-- C4 (amended): when the current version carries a prerelease with the
configured suffix, `incrementPrerelease` returns the base triple with that
suffix and the existing number incremented by 1 (ignoring the supplied
number); when no prerelease is recognised or the suffix differs, it starts
a fresh prerelease by appending the supplied suffix and number to the
entire current version text (for a bare triple this coincides with the
triple); in particular the claim's two examples hold. -/
theorem incrementPrerelease_amended (M N P k : Nat) (sfx : List Char) (v : String)
    (inputs : Inputs) :
    (sfx ≠ [] → (∀ c ∈ sfx, isWordChar c = true) →
     inputs.prereleaseSuffix = String.mk sfx →
      incrementPrerelease
          (formatVersion M N P (some (String.mk (sfx ++ '.' :: decChars k)))) inputs
        = formatVersion M N P
            (some (inputs.prereleaseSuffix ++ "." ++ String.mk (decChars (k + 1)))))
  ∧ ((parseExistingPrerelease v = none ∨
      (∃ e, parseExistingPrerelease v = some e ∧ e.suffix ≠ inputs.prereleaseSuffix)) →
      incrementPrerelease v inputs
        = v ++ "-" ++ inputs.prereleaseSuffix ++ "." ++ inputs.prereleaseNumber)
  ∧ incrementPrerelease "v1.3.0-beta.1" ⟨"beta", "1"⟩ = "v1.3.0-beta.2"
  ∧ incrementPrerelease "v1.3.0" ⟨"rc", "1"⟩ = "v1.3.0-rc.1" := by
  refine ⟨?_, ?_, by decide, by decide⟩
  · exact incrementPrerelease_same_suffix M N P k sfx inputs
  · intro h
    rcases h with h | ⟨e, he, hs⟩
    · rw [incrementPrerelease, h]
    · rw [incrementPrerelease, he]
      simp only [if_neg hs]

/-- C4 witness: the same-suffix increment and the fresh-start branch at
concrete inputs. -/
theorem incrementPrerelease_amended_witness :
    incrementPrerelease
        (formatVersion 1 3 0 (some (String.mk (['b', 'e', 't', 'a'] ++ '.' :: decChars 1))))
        ⟨"beta", "2"⟩
      = formatVersion 1 3 0 (some (("beta" : String) ++ "." ++ String.mk (decChars 2)))
  ∧ incrementPrerelease "v2.0.0" ⟨"rc", "1"⟩ = "v2.0.0" ++ "-" ++ "rc" ++ "." ++ "1" :=
  ⟨(incrementPrerelease_amended 1 3 0 1 ['b', 'e', 't', 'a'] "v2.0.0" ⟨"beta", "2"⟩).1
      (by decide) (by decide) (by decide),
   (incrementPrerelease_amended 1 3 0 1 ['b', 'e', 't', 'a'] "v2.0.0" ⟨"rc", "1"⟩).2.1
      (Or.inl (by decide))⟩

/-! ### Claim C10: prerelease recognition is keyed to the first segment -/

/-- C10: `parseExistingPrerelease` recognises a prerelease exactly through
the segment between the first and the second `-` (matched against
`^(\w+)\.(\d+)$`; with no `-` at all it recognises nothing), and whenever
that segment fails the match `incrementPrerelease` appends
`-<suffix>.<number>` to the entire original text — so
`incrementPrerelease('v1.0.0-beta', 'rc', '1')` yields the doubly-suffixed
`v1.0.0-beta-rc.1`. -/
theorem parseExistingPrerelease_shape (A B : List Char) (inputs : Inputs) :
    ('-' ∉ A →
      parseExistingPrerelease (String.mk (A ++ '-' :: B))
        = (matchPre (B.takeWhile (fun c => c ≠ '-'))).map
            (fun wk => ⟨String.mk wk.1, wk.2⟩))
  ∧ ('-' ∉ A → parseExistingPrerelease (String.mk A) = none)
  ∧ ('-' ∉ A → matchPre (B.takeWhile (fun c => c ≠ '-')) = none →
      incrementPrerelease (String.mk (A ++ '-' :: B)) inputs
        = String.mk (A ++ '-' :: B) ++ "-" ++ inputs.prereleaseSuffix ++ "." ++
            inputs.prereleaseNumber)
  ∧ incrementPrerelease "v1.0.0-beta" ⟨"rc", "1"⟩ = "v1.0.0-beta-rc.1" := by
  refine ⟨fun h => parseExistingPrerelease_segment h,
    fun h => parseExistingPrerelease_no_dash h, ?_, by decide⟩
  intro h hm
  rw [incrementPrerelease, parseExistingPrerelease_segment h, hm]
  rfl

/-- C10 witness: the malformed segment `beta` (no dot-number) at a concrete
version. -/
theorem parseExistingPrerelease_shape_witness :
    incrementPrerelease
        (String.mk (['v', '1', '.', '0', '.', '0'] ++ '-' :: ['b', 'e', 't', 'a']))
        ⟨"rc", "1"⟩
      = String.mk (['v', '1', '.', '0', '.', '0'] ++ '-' :: ['b', 'e', 't', 'a'])
          ++ "-" ++ "rc" ++ "." ++ "1" :=
  (parseExistingPrerelease_shape ['v', '1', '.', '0', '.', '0'] ['b', 'e', 't', 'a']
    ⟨"rc", "1"⟩).2.2.1 (by decide) (by decide)

/-! ### Claim C5: the `parseVersion` / `formatVersion` round trip -/

theorem str_ext {a b : String} (h : a.data = b.data) : a = b := by
  cases a
  cases b
  exact congrArg String.mk h

theorem data_append (a b : String) : (a ++ b).data = a.data ++ b.data := rfl

/-- C5: for all non-negative `M`, `N`, `P` and any prerelease matching
`\w+\.\d+` (or null), `parseVersion (formatVersion M N P pre)` returns
exactly `{major := M, minor := N, patch := P, prerelease := pre}`;
`formatVersion` always emits the `v` prefix and the dotted triple, and
appends `-<prerelease>` exactly when the prerelease is non-null and
non-empty. -/
theorem parse_format_roundtrip (M N P : Nat) (pre : Option String) :
    ((pre = none ∨ ∃ p, pre = some p ∧ (matchPre p.data).isSome = true) →
      parseVersion (formatVersion M N P pre) = ⟨M, N, P, pre⟩)
  ∧ (formatVersion M N P pre).data.head? = some 'v'
  ∧ ((pre = none ∨ pre = some "") → formatVersion M N P pre = formatVersion M N P none)
  ∧ (∀ p, pre = some p → p ≠ "" →
      formatVersion M N P pre = formatVersion M N P none ++ "-" ++ p) := by
  refine ⟨?_, rfl, ?_, ?_⟩
  · rintro (rfl | ⟨p, rfl, hm⟩)
    · exact parseVersion_format_none M N P
    · have hp : p ≠ "" := by
        intro e
        rw [e] at hm
        exact absurd hm (by decide)
      exact parseVersion_format_some M N P p hp
  · rintro (rfl | rfl)
    · rfl
    · simp [formatVersion, formatVersionChars]
  · rintro p rfl hp
    have hd : p.data ≠ [] := by
      intro e
      refine hp ?_
      cases p with
      | mk l => simp at e; rw [e]
    apply str_ext
    rw [show (formatVersion M N P (some p)).data
        = formatVersionChars M N P (some p.data) from rfl]
    rw [formatVersionChars_some M N P hd, data_append, data_append]
    rw [show (formatVersion M N P none).data = formatVersionChars M N P none from rfl]
    rw [formatVersionChars_none]
    simp

/-- C5 witness: the round trip and the dash-append rule at `1.2.3-beta.1`. -/
theorem parse_format_roundtrip_witness :
    parseVersion (formatVersion 1 2 3 (some "beta.1")) = ⟨1, 2, 3, some "beta.1"⟩
  ∧ formatVersion 1 2 3 (some "beta.1") = formatVersion 1 2 3 none ++ "-" ++ "beta.1" :=
  ⟨(parse_format_roundtrip 1 2 3 (some "beta.1")).1
      (Or.inr ⟨"beta.1", rfl, by decide⟩),
   (parse_format_roundtrip 1 2 3 (some "beta.1")).2.2.2 "beta.1" rfl (by decide)⟩

end SemRel
